import Mathlib

/-!
Verification of the blob-utils tool: the blob codec (`EncodeBlobs`,
`DecodeBlob` in utils.go), the chunked blobs-sidecar response loop
(`sendBlobsSidecarsByRangeRequest`, `readChunkedBlobsSidecar`,
`readStatusCodeNoDeadline` in download.go), the peer-address resolver
(`getMultiaddr`, `retrievePeerID` in download.go) and the post-processing
of fetched sidecars (`DownloadApp` in download.go).

Byte values are modelled as `Nat` and byte buffers as `List Nat`.  Network
I/O and third-party decoding are modelled at the chunk framing granularity
of the specification; each such modelling choice is documented on the
definition that makes it.
-/

/- ===================== Definitions ===================== -/

/-- Constant `params.FieldElementsPerBlob` of the go-ethereum EIP-4844 fork:
a blob holds 4096 field elements. -/
def FieldElementsPerBlob : Nat := 4096

/-- Type `types.Blob` of the go-ethereum EIP-4844 fork: an ordered sequence
of `FieldElementsPerBlob` field elements, each a 32-byte group consisting of
31 usable payload bytes followed by one reserved high-order byte. -/
abbrev Blob := List (List Nat)

/-- An all-zero 32-byte field element. -/
def zeroElement : List Nat := List.replicate 32 0

/-- A freshly allocated, all-zero blob (`types.Blob{}` in Go). -/
def zeroBlob : Blob := List.replicate FieldElementsPerBlob zeroElement

/-- Go's builtin `copy(dst, src)`: overwrite the first `min |src| |dst|`
entries of `dst` with those of `src`, keeping the rest of `dst`. -/
def goCopy (dst src : List Nat) : List Nat :=
  src.take (min src.length dst.length) ++ dst.drop (min src.length dst.length)

/-- One loop iteration's write
`copy(blobs[blobIndex][fieldIndex][:], data[i:max])` from `EncodeBlobs`
(utils.go): replace field element `fieldIndex` of blob `blobIndex` with the
result of copying `chunk` over that element. -/
def writeChunk (blobs : List Blob) (blobIndex fieldIndex : Nat) (chunk : List Nat) :
    List Blob :=
  blobs.set blobIndex
    ((blobs.getD blobIndex zeroBlob).set fieldIndex
      (goCopy ((blobs.getD blobIndex zeroBlob).getD fieldIndex []) chunk))

/-- The loop of `EncodeBlobs` (utils.go).  The Go loop walks `data` in
31-byte strides (`for i := 0; i < len(data); i += 31`, stride `data[i:max]`),
modelled by recursing on `data.drop 31` with `data.take 31` as the current
stride.  Go's `fieldIndex` starts at `-1` and is incremented at the top of
every iteration; `fieldIndex` here carries the already-incremented value, so
the initial call passes `0`.  When it reaches `FieldElementsPerBlob`, a fresh
all-zero blob is appended (`blobs = append(blobs, types.Blob{})`) and filling
continues in that blob at element 0. -/
def encodeBlobsGo (data : List Nat) (blobs : List Blob) (blobIndex fieldIndex : Nat) :
    List Blob :=
  if h : data = [] then blobs
  else if fieldIndex = FieldElementsPerBlob then
    encodeBlobsGo (data.drop 31)
      (writeChunk (blobs ++ [zeroBlob]) (blobIndex + 1) 0 (data.take 31))
      (blobIndex + 1) 1
  else
    encodeBlobsGo (data.drop 31)
      (writeChunk blobs blobIndex fieldIndex (data.take 31))
      blobIndex (fieldIndex + 1)
termination_by data.length
decreasing_by
  all_goals
    have hpos : 0 < data.length := List.length_pos.mpr h
    simp only [List.length_drop]
    omega

/-- Function `EncodeBlobs` (utils.go): pack `data` into blobs, 31 bytes per
field element, starting from one pre-zeroed blob
(`blobs := []types.Blob{{}}`). -/
def EncodeBlobs (data : List Nat) : List Blob :=
  encodeBlobsGo data [zeroBlob] 0 0

/-- Function `DecodeBlob` (utils.go): scan the flattened blob backwards for
the last non-zero byte and return the prefix up to and including it, i.e.
remove the maximal trailing run of zero bytes. -/
def DecodeBlob (blob : List Nat) : List Nat :=
  (blob.reverse.dropWhile (· == 0)).reverse

/-- A blob flattened to its wire bytes (`enc[:]` in utils_test.go,
`blob.Data` of a fetched sidecar in download.go): the 32-byte field elements
concatenated in order. -/
def flattenBlob (b : Blob) : List Nat := b.flatten

/-- The 31-byte strides of `data`, in order: the successive values of
`data[i:max]` taken by the `EncodeBlobs` loop. -/
def chunks31 (data : List Nat) : List (List Nat) :=
  if h : data = [] then [] else data.take 31 :: chunks31 (data.drop 31)
termination_by data.length
decreasing_by
  have hpos : 0 < data.length := List.length_pos.mpr h
  simp only [List.length_drop]
  omega

/-- A stride of at most 32 bytes as a full 32-byte field element: the stride
followed by zero padding (the element was pre-zeroed and `goCopy` only
overwrites its first `|c|` bytes). -/
def padElem (c : List Nat) : List Nat := c ++ List.replicate (32 - c.length) 0

/-- The blob whose first `cs.length` field elements hold the strides of `cs`
(zero-padded to 32 bytes each) and whose remaining elements are zero. -/
def fillBlob (cs : List (List Nat)) : Blob :=
  cs.map padElem ++ List.replicate (FieldElementsPerBlob - cs.length) zeroElement

/-- Strides grouped into blobs of `FieldElementsPerBlob` elements each; an
empty stride list still yields one all-zero blob.  This is the closed-form
description of what the `EncodeBlobs` loop builds; the equivalence is proved
below as `EncodeBlobs_eq`. -/
def blobsOfChunks (cs : List (List Nat)) : List Blob :=
  if cs.length ≤ FieldElementsPerBlob then [fillBlob cs]
  else fillBlob (cs.take FieldElementsPerBlob)
    :: blobsOfChunks (cs.drop FieldElementsPerBlob)
termination_by cs.length
decreasing_by
  simp only [List.length_drop]
  simp only [FieldElementsPerBlob] at *
  omega

/-- The decode-of-encode composition performed by the callers of the codec
(DownloadApp in download.go writes `DecodeBlob(blob.Data)` for each blob in
order, and utils_test.go concatenates the per-blob decodes): decode each
encoded blob's wire bytes and concatenate the results in order. -/
def roundTrip (data : List Nat) : List Nat :=
  ((EncodeBlobs data).map (fun b => DecodeBlob (flattenBlob b))).flatten

/-- Type `ethpb.BlobsSidecar` restricted to the fields download.go reads:
the sidecar's slot (`BeaconBlockSlot`, a uint64) and the wire bytes
(`blob.Data`) of each of its blobs. -/
structure BlobsSidecar where
  beaconBlockSlot : Nat
  blobs : List (List Nat)
deriving DecidableEq

/-- Go error values as download.go uses them: the sentinel `io.EOF`, a fresh
`errors.New s`, and `fmt.Errorf("%w: note", e)` wrapping. -/
inductive GoError where
  | eof : GoError
  | simple (s : String) : GoError
  | wrap (e : GoError) (note : String) : GoError
deriving DecidableEq

/-- The rendered error text `err.Error()`: `io.EOF` renders as "EOF" and a
wrap built by `fmt.Errorf("%w: note", e)` renders as
`e.Error() ++ ": " ++ note`. -/
def GoError.message : GoError → String
  | .eof => "EOF"
  | .simple s => s
  | .wrap e note => e.message ++ ": " ++ note

/-- Test `errors.Is(err, io.EOF)`: whether `io.EOF` occurs in the wrap
chain of `err`. -/
def GoError.isEOF : GoError → Bool
  | .eof => true
  | .wrap e _ => e.isEOF
  | _ => false

/-- A response stream, modelled at the chunk-framing granularity the
specification gives for the wire protocol: each well-formed chunk
contributes a status byte, then (only for a nonzero status) a
length-prefixed error message, or (for status zero) the fixed 4-byte
context field followed by a length-prefixed sidecar payload.  `corrupt s`
stands for a region of the stream on which any read or decode fails with
the non-EOF error `errors.New s`; the end of the list is the clean end of
the stream. -/
inductive WireToken where
  | statusByte (b : Nat) : WireToken
  | errMsgTok (s : String) : WireToken
  | contextBytes : WireToken
  | payload (sc : BlobsSidecar) : WireToken
  | corrupt (s : String) : WireToken
deriving DecidableEq

/-- Models `stream.Read` on a 1-byte buffer positioned where a status byte
is expected (external libp2p stream I/O): the clean end of the stream
yields `io.EOF`, a corrupt region yields its error, and any other framing
position yields a transport error. -/
def readStreamByte : List WireToken → Except GoError (Nat × List WireToken)
  | [] => .error .eof
  | .statusByte b :: r => .ok (b, r)
  | .corrupt s :: _ => .error (.simple s)
  | _ => .error (.simple "transport error")

/-- Models `encoding.DecodeWithMaxLength(stream, msg)` for a
`p2ptypes.ErrorMessage` (external prysm SSZ decoding): a well-formed
length-prefixed error message decodes to its string; the clean end of the
stream surfaces `io.EOF`; a corrupt region fails with its error; any other
framing position is a decode error. -/
def decodeErrorMessage : List WireToken → Except GoError (String × List WireToken)
  | [] => .error .eof
  | .errMsgTok s :: r => .ok (s, r)
  | .corrupt s :: _ => .error (.simple s)
  | _ => .error (.simple "decode error")

/-- Models `stream.Read(b)` for the fixed 4-byte context field (external
libp2p stream I/O; download.go reads and discards these bytes): the clean
end of the stream yields `io.EOF`, a corrupt region yields its error, any
other framing position is a transport error. -/
def readContextBytes : List WireToken → Except GoError (List WireToken)
  | [] => .error .eof
  | .contextBytes :: r => .ok r
  | .corrupt s :: _ => .error (.simple s)
  | _ => .error (.simple "transport error")

/-- Models `encoding.DecodeWithMaxLength(stream, sidecar)` for an
`ethpb.BlobsSidecar` (external prysm SSZ decoding): a well-formed
length-prefixed payload decodes to its sidecar; the clean end of the stream
surfaces `io.EOF`; a corrupt region fails with its error; any other framing
position is a decode error. -/
def decodeSidecarPayload : List WireToken → Except GoError (BlobsSidecar × List WireToken)
  | [] => .error .eof
  | .payload sc :: r => .ok (sc, r)
  | .corrupt s :: _ => .error (.simple s)
  | _ => .error (.simple "decode error")

/-- Constant `responseCodeSuccess = byte(0x00)` (download.go). -/
def responseCodeSuccess : Nat := 0

/-- Function `readStatusCodeNoDeadline` (download.go): read one status
byte; a read error propagates; `responseCodeSuccess` returns code 0 with no
message; a nonzero byte is followed by a length-prefixed error message
whose decode failure propagates. -/
def readStatusCodeNoDeadline (stream : List WireToken) :
    Except GoError (Nat × String × List WireToken) :=
  match readStreamByte stream with
  | .error e => .error e
  | .ok (b, r) =>
    if b = responseCodeSuccess then .ok (0, "", r)
    else
      match decodeErrorMessage r with
      | .error e => .error e
      | .ok (msg, r₂) => .ok (b, msg, r₂)

/-- Prysm's `sync.ReadStatusCode` (external), used for the first chunk: the
same status-byte-then-optional-error-message framing as
`readStatusCodeNoDeadline`.  The only difference in the source is read
deadline handling, which is real-time behaviour and is not modelled. -/
def syncReadStatusCode (stream : List WireToken) :
    Except GoError (Nat × String × List WireToken) :=
  readStatusCodeNoDeadline stream

/-- Function `readChunkedBlobsSidecar` (download.go): read one response
chunk.  The first chunk's status is read without a deadline via prysm's
`sync.ReadStatusCode`, later chunks through `readStatusCodeNoDeadline`
after setting a 10-second read deadline (the deadline itself is real-time
behaviour, not modelled).  A nonzero status code aborts with
`errors.New(errMsg)`; otherwise the 4-byte context field is read and
discarded and the sidecar payload is decoded. -/
def readChunkedBlobsSidecar (stream : List WireToken) (isFirstChunk : Bool) :
    Except GoError (BlobsSidecar × List WireToken) :=
  match (if isFirstChunk then syncReadStatusCode stream else readStatusCodeNoDeadline stream) with
  | .error e => .error e
  | .ok (code, errMsg, r) =>
    if code ≠ 0 then .error (.simple errMsg)
    else
      match readContextBytes r with
      | .error e => .error e
      | .ok r₂ =>
        match decodeSidecarPayload r₂ with
        | .error e => .error e
        | .ok (sc, r₃) => .ok (sc, r₃)

/-- The response loop of `sendBlobsSidecarsByRangeRequest` (download.go):
repeatedly read one chunk, with `isFirstChunk := len(blobSidecars) == 0`.
An error satisfying `errors.Is(err, io.EOF)` breaks the loop, returning the
sidecars collected so far; any other error aborts the call wrapped as
`fmt.Errorf("%w: readChunkedBlobsSidecar", err)`; a decoded sidecar is
appended and the loop continues. -/
def sendBlobsSidecarsLoop (stream : List WireToken) (blobSidecars : List BlobsSidecar) :
    Except GoError (List BlobsSidecar) :=
  match h : readChunkedBlobsSidecar stream (blobSidecars.length == 0) with
  | .error e =>
    if e.isEOF then .ok blobSidecars
    else .error (.wrap e "readChunkedBlobsSidecar")
  | .ok (sc, rest) => sendBlobsSidecarsLoop rest (blobSidecars ++ [sc])
termination_by stream.length
decreasing_by
  have hbyte : ∀ (st : List WireToken) (q : Nat × List WireToken),
      readStreamByte st = .ok q → q.2.length < st.length := by
    intro st q hq
    cases st with
    | nil => simp [readStreamByte] at hq
    | cons t ts =>
      cases t <;> simp [readStreamByte] at hq
      subst hq
      simp
  have hmsg : ∀ (st : List WireToken) (q : String × List WireToken),
      decodeErrorMessage st = .ok q → q.2.length < st.length := by
    intro st q hq
    cases st with
    | nil => simp [decodeErrorMessage] at hq
    | cons t ts =>
      cases t <;> simp [decodeErrorMessage] at hq
      subst hq
      simp
  have hctx : ∀ (st r : List WireToken),
      readContextBytes st = .ok r → r.length < st.length := by
    intro st r hq
    cases st with
    | nil => simp [readContextBytes] at hq
    | cons t ts =>
      cases t <;> simp [readContextBytes] at hq
      subst hq
      simp
  have hpay : ∀ (st : List WireToken) (q : BlobsSidecar × List WireToken),
      decodeSidecarPayload st = .ok q → q.2.length < st.length := by
    intro st q hq
    cases st with
    | nil => simp [decodeSidecarPayload] at hq
    | cons t ts =>
      cases t <;> simp [decodeSidecarPayload] at hq
      subst hq
      simp
  have hstatus : ∀ (st : List WireToken) (q : Nat × String × List WireToken),
      readStatusCodeNoDeadline st = .ok q → q.2.2.length < st.length := by
    intro st q hq
    unfold readStatusCodeNoDeadline at hq
    split at hq
    · exact absurd hq (by simp)
    · rename_i b r heq
      split at hq
      · injection hq with hq₂
        subst hq₂
        exact hbyte st (b, r) heq
      · split at hq
        · exact absurd hq (by simp)
        · rename_i msg r₂ heq₂
          injection hq with hq₂
          subst hq₂
          exact lt_trans (hmsg r (msg, r₂) heq₂) (hbyte st (b, r) heq)
  have hlt : ∀ (st : List WireToken) (f : Bool) (p : BlobsSidecar × List WireToken),
      readChunkedBlobsSidecar st f = .ok p → p.2.length < st.length := by
    intro st f p hok
    have hok' : readChunkedBlobsSidecar st true = .ok p := by
      cases f
      · simpa [readChunkedBlobsSidecar, syncReadStatusCode] using hok
      · exact hok
    clear hok
    unfold readChunkedBlobsSidecar syncReadStatusCode at hok'
    simp only [if_pos rfl] at hok'
    split at hok'
    · exact absurd hok' (by simp)
    · rename_i code errMsg r heq
      split at hok'
      · exact absurd hok' (by simp)
      · split at hok'
        · exact absurd hok' (by simp)
        · rename_i r₂ heq₂
          split at hok'
          · exact absurd hok' (by simp)
          · rename_i sc r₃ heq₃
            injection hok' with hok₂
            subst hok₂
            have h₁ := hpay r₂ (sc, r₃) heq₃
            have h₂ := hctx r r₂ heq₂
            have h₃ := hstatus st (code, errMsg, r) heq
            exact lt_trans h₁ (lt_trans h₂ h₃)
  exact hlt _ _ _ h

/-- Function `sendBlobsSidecarsByRangeRequest` (download.go), restricted to
its response phase: the stream opening, request encoding, write and
half-close steps are external I/O that either all succeed (yielding the
response stream contents this function consumes) or abort before any chunk
is read.  Given the response stream, the function is the chunk loop started
with an empty accumulator. -/
def sendBlobsSidecarsByRangeRequest (responseStream : List WireToken) :
    Except GoError (List BlobsSidecar) :=
  sendBlobsSidecarsLoop responseStream []

/-- The wire form of one well-formed response chunk carrying sidecar `sc`:
status byte 0, the 4-byte context field, then the length-prefixed payload. -/
def goodChunk (sc : BlobsSidecar) : List WireToken :=
  [.statusByte 0, .contextBytes, .payload sc]

/-- A response stream consisting of well-formed chunks for the sidecars
`scs`, in order, ending cleanly. -/
def wfChunks (scs : List BlobsSidecar) : List WireToken :=
  (scs.map goodChunk).flatten

/-- Go's `int64(u)` conversion of a uint64 value `u < 2^64`: reinterpret
the top bit as the sign. -/
def toInt64 (x : Nat) : Int :=
  if x < 2 ^ 63 then (x : Int) else (x : Int) - 2 ^ 64

/-- The sidecar scan loop of `DownloadApp` (download.go, after a successful
fetch): walk the sidecars in order; stop at the first sidecar whose slot
(cast to int64) differs from the requested slot; skip sidecars with no
blobs; at the first sidecar with blobs, emit the concatenation of
`DecodeBlob(blob.Data)` over its blobs in order and stop.  Returns `none`
when no sidecar contributed blobs (`anyBlobs == false`). -/
def downloadScanLoop (slot : Int) : List BlobsSidecar → Option (List Nat)
  | [] => none
  | sc :: rest =>
    if toInt64 sc.beaconBlockSlot ≠ slot then none
    else if sc.blobs.length = 0 then downloadScanLoop slot rest
    else some ((sc.blobs.map DecodeBlob).flatten)

/-- The post-processing tail of `DownloadApp` (download.go): the bytes the
scan loop emits on standard output, or the
`no blobs found in requested slots, sidecar count: %d` error when no
sidecar contributed blobs. -/
def DownloadAppPostProcess (slot : Int) (sidecars : List BlobsSidecar) :
    Except GoError (List Nat) :=
  match downloadScanLoop slot sidecars with
  | some out => .ok out
  | none => .error (.simple ("no blobs found in requested slots, sidecar count: "
      ++ toString sidecars.length))

/-- The spec-side description of which sidecar contributes the output: the
first sidecar with a non-empty blob list within the longest prefix of
sidecars whose slot matches the requested slot. -/
def contributingSidecar (slot : Int) (sidecars : List BlobsSidecar) : Option BlobsSidecar :=
  (sidecars.takeWhile (fun sc => toInt64 sc.beaconBlockSlot == slot)).find?
    (fun sc => !sc.blobs.isEmpty)

/-- Constant `incorrectPeerID` (download.go): the syntactically valid but
deliberately incorrect fingerprint used for the identity-discovery probe. -/
def incorrectPeerID : String := "16Uiu2HAmSifdT5QutTsaET8xqjWAMPp4obrQv7LN79f2RMmBe3nY"

/-- Test whether `needle` occurs as a contiguous run inside `hay`. -/
def containsSub (needle : List Char) : List Char → Bool
  | [] => needle.isEmpty
  | c :: rest => needle.isPrefixOf (c :: rest) || containsSub needle rest

/-- Go's `strings.Contains(s, substr)`. -/
def goStringsContains (s substr : String) : Bool :=
  containsSub substr.toList s.toList

/-- Split a character list around each space character, keeping empty
segments; always returns at least one segment. -/
def splitSpace : List Char → List (List Char)
  | [] => [[]]
  | c :: rest =>
    if c = ' ' then [] :: splitSpace rest
    else
      match splitSpace rest with
      | [] => [[c]]
      | seg :: segs => (c :: seg) :: segs

/-- Go's `strings.Split(s, " ")`: split around each single space, keeping
empty fields; the result is never the empty slice. -/
def goStringsSplit (s : String) : List String :=
  (splitSpace s.toList).map (fun cs => String.mk cs)

/-- A parsed multiaddr as download.go observes it through `peer.SplitAddr`
(external multiformats parsing): the bare transport part and the embedded
persistent-identity fingerprint, with `""` meaning no fingerprint is
embedded, exactly the convention of `peer.SplitAddr`. -/
structure Multiaddr where
  base : String
  pid : String
deriving DecidableEq

/-- Function `retrievePeerID` (download.go): probe the peer with a
deliberately incorrect fingerprint.  `connectErr` is the outcome of the
external `h.Connect` attempt on the probe address (`none` = the connection
succeeded, `some err` = it failed with `err`); the construction of the
probe address by `peer.AddrInfoFromString` is external parsing assumed to
succeed on a parseable bare address.  An unexpectedly successful connection
is an error; a failure whose text contains "but remote key matches" yields
the last space-delimited token of that text as the peer ID; any other
failure propagates verbatim. -/
def retrievePeerID (connectErr : Option GoError) : Except GoError String :=
  match connectErr with
  | none => .error (.simple "unexpected successful connection")
  | some err =>
    if goStringsContains err.message "but remote key matches" then
      .ok ((goStringsSplit err.message).getLastD "")
    else .error err

/-- Function `getMultiaddr` (download.go), over an already-parsed address
(the `ma.NewMultiaddr` string parsing is external; its failure path on an
unparseable address string is not modelled): if the address already embeds
a fingerprint (`peer.SplitAddr` returns a non-empty id), return it
unchanged; otherwise discover the peer ID via `retrievePeerID` and return
the bare address with that fingerprint appended
(`fmt.Sprintf("%s/p2p/%s", addr, id)`). -/
def getMultiaddr (parsedAddr : Multiaddr) (connectErr : Option GoError) :
    Except GoError Multiaddr :=
  if parsedAddr.pid ≠ "" then .ok parsedAddr
  else
    match retrievePeerID connectErr with
    | .error e => .error e
    | .ok id => .ok ⟨parsedAddr.base, id⟩

/- ===================== Theorems ===================== -/

lemma getD_append_len {α : Type} (xs ys : List α) (d : α) (n : Nat) (h : n = xs.length) :
    (xs ++ ys).getD n d = ys.getD 0 d := by
  subst h
  induction xs with
  | nil => rfl
  | cons a xs ih => simpa [List.getD_cons_succ] using ih

lemma set_append_len {α : Type} (xs ys : List α) (z : α) (n : Nat) (h : n = xs.length) :
    (xs ++ ys).set n z = xs ++ ys.set 0 z := by
  subst h
  induction xs with
  | nil => rfl
  | cons a xs ih => simpa [List.set_cons_succ] using ih

lemma fillBlob_nil : fillBlob [] = zeroBlob := by
  simp [fillBlob, zeroBlob]

lemma fillBlob_getD (cs : List (List Nat)) (h : cs.length < FieldElementsPerBlob) :
    (fillBlob cs).getD cs.length [] = zeroElement := by
  rw [fillBlob, getD_append_len _ _ _ _ (by simp)]
  have h1 : FieldElementsPerBlob - cs.length = (FieldElementsPerBlob - cs.length - 1) + 1 := by
    omega
  rw [h1, List.replicate_succ]
  rfl

lemma goCopy_zeroElement (c : List Nat) (hc : c.length ≤ 32) :
    goCopy zeroElement c = padElem c := by
  unfold goCopy zeroElement padElem
  have hm : min c.length (List.replicate 32 (0 : Nat)).length = c.length := by
    simp [min_eq_left, hc]
  rw [hm, List.take_length, List.drop_replicate]

lemma fillBlob_set (cs : List (List Nat)) (c : List Nat)
    (hlt : cs.length < FieldElementsPerBlob) (hc : c.length ≤ 32) :
    (fillBlob cs).set cs.length (goCopy ((fillBlob cs).getD cs.length []) c)
      = fillBlob (cs ++ [c]) := by
  rw [fillBlob_getD cs hlt, goCopy_zeroElement c hc]
  unfold fillBlob
  rw [set_append_len _ _ _ _ (by simp)]
  have h1 : FieldElementsPerBlob - cs.length = (FieldElementsPerBlob - cs.length - 1) + 1 := by
    omega
  rw [h1, List.replicate_succ, List.set_cons_zero]
  simp [Nat.sub_sub]

lemma encodeBlobsGo_spec (n : Nat) :
    ∀ (data : List Nat), data.length ≤ n →
    ∀ (done : List Blob) (ps : List (List Nat)), ps.length ≤ FieldElementsPerBlob →
      encodeBlobsGo data (done ++ [fillBlob ps]) done.length ps.length
        = done ++ blobsOfChunks (ps ++ chunks31 data) := by
  induction n with
  | zero =>
    intro data hlen done ps hps
    have hd : data = [] := by
      cases data with
      | nil => rfl
      | cons a l => simp at hlen
    subst hd
    rw [encodeBlobsGo.eq_def, dif_pos rfl, chunks31.eq_def, dif_pos rfl]
    rw [List.append_nil, blobsOfChunks.eq_def, if_pos hps]
  | succ n ih =>
    intro data hlen done ps hps
    by_cases hd : data = []
    · subst hd
      rw [encodeBlobsGo.eq_def, dif_pos rfl, chunks31.eq_def, dif_pos rfl]
      rw [List.append_nil, blobsOfChunks.eq_def, if_pos hps]
    · have hdlen : 0 < data.length := List.length_pos.mpr hd
      have hdrop : (data.drop 31).length ≤ n := by
        simp only [List.length_drop]
        omega
      have htake : (data.take 31).length ≤ 32 := by
        rw [List.length_take]
        omega
      rw [chunks31.eq_def, dif_neg hd]
      rw [encodeBlobsGo.eq_def, dif_neg hd]
      by_cases hfi : ps.length = FieldElementsPerBlob
      · rw [if_pos hfi]
        have hw : writeChunk ((done ++ [fillBlob ps]) ++ [zeroBlob]) (done.length + 1) 0
            (data.take 31) = (done ++ [fillBlob ps]) ++ [fillBlob [data.take 31]] := by
          unfold writeChunk
          rw [getD_append_len _ _ _ _ (by simp), set_append_len _ _ _ _ (by simp)]
          have h0 : (([zeroBlob] : List Blob).getD 0 zeroBlob) = zeroBlob := rfl
          rw [h0, List.set_cons_zero]
          have hz : zeroBlob = fillBlob [] := fillBlob_nil.symm
          rw [hz]
          have := fillBlob_set [] (data.take 31)
            (by simp [FieldElementsPerBlob]) htake
          simp only [List.length_nil] at this
          rw [this]
          rfl
        rw [List.append_assoc done [fillBlob ps] [zeroBlob]] at hw
        simp only [List.append_assoc] at hw ⊢
        rw [hw]
        have hlen1 : done.length + 1 = (done ++ [fillBlob ps]).length := by simp
        have hone : (1 : Nat) = ([data.take 31] : List (List Nat)).length := by simp
        rw [← List.append_assoc done [fillBlob ps] [fillBlob [data.take 31]]]
        rw [hlen1, hone]
        rw [ih (data.drop 31) hdrop (done ++ [fillBlob ps]) [data.take 31]
          (by simp [FieldElementsPerBlob])]
        rw [blobsOfChunks.eq_def (ps ++ data.take 31 :: chunks31 (data.drop 31))]
        have hgt : ¬ (ps ++ data.take 31 :: chunks31 (data.drop 31)).length
            ≤ FieldElementsPerBlob := by
          simp [hfi]
        rw [if_neg hgt]
        rw [List.take_left' hfi, List.drop_left' hfi]
        simp
      · rw [if_neg hfi]
        have hlt : ps.length < FieldElementsPerBlob := lt_of_le_of_ne hps hfi
        have hw : writeChunk (done ++ [fillBlob ps]) done.length ps.length (data.take 31)
            = done ++ [fillBlob (ps ++ [data.take 31])] := by
          unfold writeChunk
          rw [getD_append_len _ _ _ _ rfl, set_append_len _ _ _ _ rfl]
          have h0 : (([fillBlob ps] : List Blob).getD 0 zeroBlob) = fillBlob ps := rfl
          rw [h0]
          rw [fillBlob_set ps (data.take 31) hlt htake]
          simp
        rw [hw]
        have hps1 : ps.length + 1 = (ps ++ [data.take 31]).length := by simp
        rw [hps1]
        rw [ih (data.drop 31) hdrop done (ps ++ [data.take 31]) (by simp; omega)]
        simp

theorem EncodeBlobs_eq (data : List Nat) :
    EncodeBlobs data = blobsOfChunks (chunks31 data) := by
  have h := encodeBlobsGo_spec data.length data le_rfl [] []
    (by simp [FieldElementsPerBlob])
  simp only [List.length_nil, List.nil_append, fillBlob_nil] at h
  exact h

lemma dropWhile_zero_replicate (n : Nat) (l : List Nat) :
    (List.replicate n 0 ++ l).dropWhile (· == 0) = l.dropWhile (· == 0) := by
  induction n with
  | zero => rfl
  | succ n ih => simpa [List.replicate_succ, List.dropWhile_cons] using ih

lemma DecodeBlob_append_zeros (xs : List Nat) (n : Nat) :
    DecodeBlob (xs ++ List.replicate n 0) = DecodeBlob xs := by
  simp only [DecodeBlob, List.reverse_append, List.reverse_replicate]
  rw [dropWhile_zero_replicate]

lemma DecodeBlob_replicate_zero (n : Nat) : DecodeBlob (List.replicate n 0) = [] := by
  have h := DecodeBlob_append_zeros [] n
  simpa [DecodeBlob] using h

lemma decode_split (b : List Nat) :
    b = DecodeBlob b ++ List.replicate (b.length - (DecodeBlob b).length) 0 := by
  have h2 : b = DecodeBlob b ++ (b.reverse.takeWhile (· == 0)).reverse := by
    conv_lhs => rw [← List.reverse_reverse b,
      ← List.takeWhile_append_dropWhile (· == 0) b.reverse, List.reverse_append]
    rfl
  have h1 : b.reverse.takeWhile (· == 0)
      = List.replicate (b.reverse.takeWhile (· == 0)).length 0 :=
    List.eq_replicate_length.mpr (by
      intro x hx
      have hx' := List.mem_takeWhile_imp hx
      simpa using hx')
  have hlen : (b.reverse.takeWhile (· == 0)).length = b.length - (DecodeBlob b).length := by
    have hb := congrArg List.length h2
    simp only [List.length_append, List.length_reverse] at hb
    omega
  conv_lhs => rw [h2]
  rw [← hlen]
  congr 1
  conv_lhs => rw [h1]
  rw [List.reverse_replicate]

lemma DecodeBlob_take (b : List Nat) : DecodeBlob b = b.take (DecodeBlob b).length := by
  have h := List.take_left (DecodeBlob b) (List.replicate (b.length - (DecodeBlob b).length) 0)
  rw [← decode_split b] at h
  exact h.symm

lemma dropWhile_head_not (p : Nat → Bool) (l : List Nat) (x : Nat) (xs : List Nat)
    (h : l.dropWhile p = x :: xs) : p x = false := by
  induction l with
  | nil => simp [List.dropWhile] at h
  | cons a l ih =>
    rw [List.dropWhile_cons] at h
    by_cases hpa : p a = true
    · rw [if_pos hpa] at h
      exact ih h
    · rw [if_neg hpa] at h
      injection h with h1 h2
      subst h1
      simpa using hpa

lemma DecodeBlob_getLast_ne (b : List Nat) : (DecodeBlob b).getLast? ≠ some 0 := by
  rw [DecodeBlob, List.getLast?_reverse]
  intro hcontra
  cases hdw : b.reverse.dropWhile (· == 0) with
  | nil => rw [hdw] at hcontra; simp at hcontra
  | cons x xs =>
    rw [hdw] at hcontra
    simp only [List.head?_cons, Option.some.injEq] at hcontra
    have hx := dropWhile_head_not (· == 0) b.reverse x xs hdw
    rw [hcontra] at hx
    simp at hx

lemma dropWhile_of_head_false (p : Nat → Bool) (x : Nat) (xs : List Nat) (h : p x = false) :
    (x :: xs).dropWhile p = x :: xs := by
  rw [List.dropWhile_cons, h]
  simp

lemma DecodeBlob_eq_self (b : List Nat) (h : b.getLast? ≠ some 0) : DecodeBlob b = b := by
  rw [DecodeBlob]
  cases hb : b.reverse with
  | nil =>
    have hbnil : b = [] := by simpa using congrArg List.reverse hb
    subst hbnil
    rfl
  | cons x xs =>
    have hx : b.getLast? = some x := by
      rw [← List.head?_reverse, hb]
      rfl
    have hx0 : (x == 0) = false := by
      rw [beq_eq_false_iff_ne]
      intro hxx
      apply h
      rw [hx, hxx]
    rw [dropWhile_of_head_false (· == 0) x xs hx0, ← hb, List.reverse_reverse]

/-- C10: for every byte sequence `b`, `DecodeBlob b` is a prefix of `b`, is
either empty or ends in a non-zero byte, and consequently `DecodeBlob` is
idempotent: `DecodeBlob (DecodeBlob b) = DecodeBlob b`. -/
theorem decodeBlob_prefix_idempotent (b : List Nat) :
    DecodeBlob b = b.take (DecodeBlob b).length
    ∧ (DecodeBlob b = [] ∨ (DecodeBlob b).getLast? ≠ some 0)
    ∧ DecodeBlob (DecodeBlob b) = DecodeBlob b := by
  refine ⟨DecodeBlob_take b, Or.inr (DecodeBlob_getLast_ne b), ?_⟩
  exact DecodeBlob_eq_self _ (DecodeBlob_getLast_ne b)

lemma flatten_replicate_zeroElement (n : Nat) :
    (List.replicate n zeroElement).flatten = List.replicate (n * 32) 0 := by
  induction n with
  | zero => rfl
  | succ n ih =>
    rw [List.replicate_succ, List.flatten_cons, ih, zeroElement, ← List.replicate_add]
    congr 1
    ring

lemma flattenBlob_fillBlob (cs : List (List Nat)) :
    flattenBlob (fillBlob cs)
      = (cs.map padElem).flatten
        ++ List.replicate ((FieldElementsPerBlob - cs.length) * 32) 0 := by
  rw [flattenBlob, fillBlob, List.flatten_append, flatten_replicate_zeroElement]

lemma DecodeBlob_flatten_fillBlob (cs : List (List Nat)) :
    DecodeBlob (flattenBlob (fillBlob cs)) = DecodeBlob ((cs.map padElem).flatten) := by
  rw [flattenBlob_fillBlob, DecodeBlob_append_zeros]

/-- C9: encode of the empty byte sequence yields exactly one blob, all of
whose bytes are zero, and `DecodeBlob` applied to an all-zero blob yields
the empty byte sequence. -/
theorem encode_empty_decode_allzero :
    EncodeBlobs [] = [zeroBlob] ∧ DecodeBlob (flattenBlob zeroBlob) = [] := by
  constructor
  · rw [EncodeBlobs_eq, chunks31.eq_def, dif_pos rfl, blobsOfChunks.eq_def,
      if_pos (by simp [FieldElementsPerBlob]), fillBlob_nil]
  · have h : flattenBlob zeroBlob = List.replicate (FieldElementsPerBlob * 32) 0 := by
      rw [flattenBlob, zeroBlob, flatten_replicate_zeroElement]
    rw [h, DecodeBlob_replicate_zero]

lemma chunks31_nil : chunks31 [] = [] := by
  rw [chunks31.eq_def, dif_pos rfl]

lemma chunks31_cons (d : List Nat) (h : d ≠ []) :
    chunks31 d = d.take 31 :: chunks31 (d.drop 31) := by
  rw [chunks31.eq_def, dif_neg h]

lemma chunks31_short (d : List Nat) (h1 : d ≠ []) (h2 : d.length ≤ 31) :
    chunks31 d = [d] := by
  rw [chunks31_cons d h1, List.take_of_length_le h2, List.drop_eq_nil_of_le h2, chunks31_nil]

lemma chunks31_length_between : ∀ (k : Nat) (d : List Nat),
    31 * k < d.length → d.length ≤ 31 * (k + 1) → (chunks31 d).length = k + 1 := by
  intro k
  induction k with
  | zero =>
    intro d h1 h2
    have hd : d ≠ [] := by
      intro hh
      subst hh
      simp at h1
    rw [chunks31_short d hd (by omega)]
    rfl
  | succ k ih =>
    intro d h1 h2
    have hd : d ≠ [] := by
      intro hh
      subst hh
      simp at h1
    rw [chunks31_cons d hd, List.length_cons]
    rw [ih (d.drop 31) (by rw [List.length_drop]; omega) (by rw [List.length_drop]; omega)]

lemma chunks31_drop : ∀ (k : Nat) (d : List Nat),
    (chunks31 d).drop k = chunks31 (d.drop (31 * k)) := by
  intro k
  induction k with
  | zero =>
    intro d
    simp
  | succ k ih =>
    intro d
    by_cases hd : d = []
    · subst hd
      simp [chunks31_nil]
    · rw [chunks31_cons d hd, List.drop_succ_cons, ih (d.drop 31), List.drop_drop]
      congr 1
      congr 1
      omega

/-- C5: with blob capacity `FieldElementsPerBlob` field elements at 31
usable bytes each, encode of an input of length `C*31` yields exactly one
blob, and encode of an input of length `C*31 + 1` yields exactly two blobs,
where the second blob's first field element carries the single trailing
input byte and every remaining byte of the second blob is zero. -/
theorem blob_sizing (d : List Nat) :
    (d.length = 31 * FieldElementsPerBlob → (EncodeBlobs d).length = 1)
    ∧ (d.length = 31 * FieldElementsPerBlob + 1 →
        (EncodeBlobs d).length = 2
        ∧ (EncodeBlobs d).getD 1 []
            = (d.drop (31 * FieldElementsPerBlob) ++ List.replicate 31 0)
                :: List.replicate (FieldElementsPerBlob - 1) zeroElement) := by
  constructor
  · intro hlen
    rw [EncodeBlobs_eq]
    have hcl : (chunks31 d).length = 4096 := by
      have h := chunks31_length_between 4095 d
        (by rw [hlen]; simp only [FieldElementsPerBlob]; omega)
        (by rw [hlen]; simp only [FieldElementsPerBlob]; omega)
      simpa using h
    rw [blobsOfChunks.eq_def, if_pos (by rw [hcl]; simp only [FieldElementsPerBlob]; omega)]
    rfl
  · intro hlen
    rw [EncodeBlobs_eq]
    have hcl : (chunks31 d).length = 4097 := by
      have h := chunks31_length_between 4096 d
        (by rw [hlen]; simp only [FieldElementsPerBlob]; omega)
        (by rw [hlen]; simp only [FieldElementsPerBlob]; omega)
      simpa using h
    have hdl : (d.drop (31 * FieldElementsPerBlob)).length = 1 := by
      rw [List.length_drop, hlen]
      simp [FieldElementsPerBlob]
    have hlast : (chunks31 d).drop FieldElementsPerBlob
        = [d.drop (31 * FieldElementsPerBlob)] := by
      rw [chunks31_drop FieldElementsPerBlob d]
      apply chunks31_short
      · intro hh
        rw [hh] at hdl
        simp at hdl
      · omega
    rw [blobsOfChunks.eq_def,
      if_neg (by rw [hcl]; simp only [FieldElementsPerBlob]; omega)]
    rw [hlast]
    rw [blobsOfChunks.eq_def,
      if_pos (by simp only [List.length_cons, List.length_nil, FieldElementsPerBlob]; omega)]
    constructor
    · rfl
    · show fillBlob [d.drop (31 * FieldElementsPerBlob)] = _
      rw [fillBlob]
      simp only [List.map_cons, List.map_nil, List.length_cons, List.length_nil,
        List.singleton_append, List.cons_append, List.nil_append]
      congr 1
      rw [padElem, hdl]

/-- C1 (code evaluation at the failing input): the round-trip of the codec
on the 32-byte input `0x01 ^ 32`, whose final byte is non-zero, returns 33
bytes — the first field element's 31 data bytes, its zero padding byte, and
the trailing data byte — rather than the input; this contradicts the
round-trip asserted by the repository's own codec tests. -/
theorem roundTrip_failing_input :
    roundTrip (List.replicate 32 1) = List.replicate 31 1 ++ [0, 1]
    ∧ roundTrip (List.replicate 32 1) ≠ List.replicate 32 1 := by
  have hchunks : chunks31 (List.replicate 32 1) = [List.replicate 31 1, [1]] := by
    rw [chunks31_cons _ (by simp)]
    rw [show (List.replicate 32 1).take 31 = List.replicate 31 1 from by decide]
    rw [show (List.replicate 32 1).drop 31 = [1] from by decide]
    rw [chunks31_short [1] (by simp) (by simp)]
  have henc : EncodeBlobs (List.replicate 32 1) = [fillBlob [List.replicate 31 1, [1]]] := by
    rw [EncodeBlobs_eq, hchunks, blobsOfChunks.eq_def,
      if_pos (by simp only [List.length_cons, List.length_nil, FieldElementsPerBlob]; omega)]
  have h1 : roundTrip (List.replicate 32 1) = List.replicate 31 1 ++ [0, 1] := by
    rw [roundTrip, henc]
    simp only [List.map_cons, List.map_nil, List.flatten_cons, List.flatten_nil,
      List.append_nil]
    rw [DecodeBlob_flatten_fillBlob]
    rw [show (([List.replicate 31 1, [1]] : List (List Nat)).map padElem).flatten
      = (List.replicate 31 1 ++ [0] ++ [1]) ++ List.replicate 31 0 from by decide]
    rw [DecodeBlob_append_zeros]
    decide
  refine ⟨h1, ?_⟩
  rw [h1]
  decide

lemma readChunked_flag (stream : List WireToken) (f : Bool) :
    readChunkedBlobsSidecar stream f = readChunkedBlobsSidecar stream true := by
  cases f <;> rfl

lemma readChunked_nil (f : Bool) : readChunkedBlobsSidecar [] f = .error .eof := by
  cases f <;> rfl

lemma readChunked_goodChunk (sc : BlobsSidecar) (rest : List WireToken) (f : Bool) :
    readChunkedBlobsSidecar (goodChunk sc ++ rest) f = .ok (sc, rest) := by
  cases f <;> rfl

lemma sendLoop_ok_step (stream rest : List WireToken) (acc : List BlobsSidecar)
    (sc : BlobsSidecar)
    (h : readChunkedBlobsSidecar stream (acc.length == 0) = .ok (sc, rest)) :
    sendBlobsSidecarsLoop stream acc = sendBlobsSidecarsLoop rest (acc ++ [sc]) := by
  conv_lhs => rw [sendBlobsSidecarsLoop.eq_def]
  split
  · rename_i e heq
    rw [h] at heq
    simp at heq
  · rename_i sc' rest' heq
    rw [h] at heq
    simp only [Except.ok.injEq, Prod.mk.injEq] at heq
    obtain ⟨h1, h2⟩ := heq
    subst h1
    subst h2
    rfl

lemma sendLoop_error_step (stream : List WireToken) (acc : List BlobsSidecar) (e : GoError)
    (h : readChunkedBlobsSidecar stream (acc.length == 0) = .error e) :
    sendBlobsSidecarsLoop stream acc
      = if e.isEOF then .ok acc else .error (.wrap e "readChunkedBlobsSidecar") := by
  conv_lhs => rw [sendBlobsSidecarsLoop.eq_def]
  split
  · rename_i e' heq
    rw [h] at heq
    simp only [Except.error.injEq] at heq
    subst heq
    rfl
  · rename_i sc' rest' heq
    rw [h] at heq
    simp at heq

lemma sendLoop_nil (acc : List BlobsSidecar) : sendBlobsSidecarsLoop [] acc = .ok acc := by
  rw [sendLoop_error_step [] acc .eof (readChunked_nil _)]
  rfl

lemma sendLoop_wf_append (scs : List BlobsSidecar) :
    ∀ (acc : List BlobsSidecar) (tail : List WireToken),
      sendBlobsSidecarsLoop (wfChunks scs ++ tail) acc
        = sendBlobsSidecarsLoop tail (acc ++ scs) := by
  induction scs with
  | nil =>
    intro acc tail
    simp [wfChunks]
  | cons sc scs ih =>
    intro acc tail
    have hs : wfChunks (sc :: scs) ++ tail = goodChunk sc ++ (wfChunks scs ++ tail) := by
      simp [wfChunks]
    rw [hs, sendLoop_ok_step _ _ _ _ (readChunked_goodChunk sc _ _), ih (acc ++ [sc]) tail]
    congr 1
    simp

/-- C8: a response stream that ends cleanly at a chunk boundary after `N`
well-formed chunks (each with status byte 0, a 4-byte context field and a
decodable payload) yields exactly the `N` decoded sidecars, in the order
the chunks were received. -/
theorem chunked_stream_termination (scs : List BlobsSidecar) :
    sendBlobsSidecarsByRangeRequest (wfChunks scs) = .ok scs := by
  show sendBlobsSidecarsLoop (wfChunks scs) [] = .ok scs
  have h := sendLoop_wf_append scs [] []
  rw [List.append_nil] at h
  rw [h, sendLoop_nil]
  simp

/-- C2 counterexample: a stream holding a single status byte 0 and nothing
else hits end-of-stream at the 4-byte context read (not at a status-byte
position), yet the call succeeds with the empty sidecar list instead of
aborting with an error, because the loop treats every `io.EOF`, wherever it
arises inside a chunk read, as clean termination. -/
theorem eof_at_context_read_succeeds :
    sendBlobsSidecarsByRangeRequest [WireToken.statusByte 0] = .ok [] := by
  show sendBlobsSidecarsLoop [WireToken.statusByte 0] [] = .ok []
  rw [sendLoop_error_step [WireToken.statusByte 0] [] GoError.eof rfl]
  rfl

/-- C2 (amended): an end-of-stream condition surfaced from anywhere inside a
chunk read — at the status-byte position, at the 4-byte context read, or at
the payload decode — terminates the loop successfully with exactly the
chunks already collected, because the loop breaks on `errors.Is(err, io.EOF)`
wherever the EOF arose; any chunk-read failure whose error is not `io.EOF`
(here a corrupt region at the status read, the error-message decode, the
context read or the payload decode) aborts the whole call with a wrapped
error and discards all partially collected sidecars. -/
theorem chunk_loop_eof_vs_failure (scs : List BlobsSidecar) (s : String)
    (rest : List WireToken) (c : Nat) :
    sendBlobsSidecarsByRangeRequest (wfChunks scs) = .ok scs
    ∧ sendBlobsSidecarsByRangeRequest (wfChunks scs ++ [WireToken.statusByte 0]) = .ok scs
    ∧ sendBlobsSidecarsByRangeRequest
        (wfChunks scs ++ [WireToken.statusByte 0, WireToken.contextBytes]) = .ok scs
    ∧ sendBlobsSidecarsByRangeRequest (wfChunks scs ++ WireToken.corrupt s :: rest)
        = .error (.wrap (.simple s) "readChunkedBlobsSidecar")
    ∧ sendBlobsSidecarsByRangeRequest
        (wfChunks scs ++ WireToken.statusByte 0 :: WireToken.corrupt s :: rest)
        = .error (.wrap (.simple s) "readChunkedBlobsSidecar")
    ∧ sendBlobsSidecarsByRangeRequest
        (wfChunks scs ++ WireToken.statusByte 0 :: WireToken.contextBytes
          :: WireToken.corrupt s :: rest)
        = .error (.wrap (.simple s) "readChunkedBlobsSidecar")
    ∧ (c ≠ 0 → sendBlobsSidecarsByRangeRequest
        (wfChunks scs ++ WireToken.statusByte c :: WireToken.corrupt s :: rest)
        = .error (.wrap (.simple s) "readChunkedBlobsSidecar")) := by
  refine ⟨?_, ?_, ?_, ?_, ?_, ?_, ?_⟩
  · show sendBlobsSidecarsLoop (wfChunks scs) [] = .ok scs
    have h := sendLoop_wf_append scs [] []
    rw [List.append_nil] at h
    rw [h, sendLoop_nil]
    simp
  · show sendBlobsSidecarsLoop (wfChunks scs ++ [WireToken.statusByte 0]) [] = .ok scs
    rw [sendLoop_wf_append scs [] [WireToken.statusByte 0]]
    rw [sendLoop_error_step _ _ GoError.eof (by rw [readChunked_flag]; rfl)]
    simp [GoError.isEOF]
  · show sendBlobsSidecarsLoop
        (wfChunks scs ++ [WireToken.statusByte 0, WireToken.contextBytes]) [] = .ok scs
    rw [sendLoop_wf_append scs [] [WireToken.statusByte 0, WireToken.contextBytes]]
    rw [sendLoop_error_step _ _ GoError.eof (by rw [readChunked_flag]; rfl)]
    simp [GoError.isEOF]
  · show sendBlobsSidecarsLoop (wfChunks scs ++ WireToken.corrupt s :: rest) [] = _
    rw [sendLoop_wf_append scs [] (WireToken.corrupt s :: rest)]
    rw [sendLoop_error_step _ _ (GoError.simple s) (by rw [readChunked_flag]; rfl)]
    rfl
  · show sendBlobsSidecarsLoop
        (wfChunks scs ++ WireToken.statusByte 0 :: WireToken.corrupt s :: rest) [] = _
    rw [sendLoop_wf_append scs [] (WireToken.statusByte 0 :: WireToken.corrupt s :: rest)]
    rw [sendLoop_error_step _ _ (GoError.simple s) (by rw [readChunked_flag]; rfl)]
    rfl
  · show sendBlobsSidecarsLoop
        (wfChunks scs ++ WireToken.statusByte 0 :: WireToken.contextBytes
          :: WireToken.corrupt s :: rest) [] = _
    rw [sendLoop_wf_append scs []
      (WireToken.statusByte 0 :: WireToken.contextBytes :: WireToken.corrupt s :: rest)]
    rw [sendLoop_error_step _ _ (GoError.simple s) (by rw [readChunked_flag]; rfl)]
    rfl
  · intro hc
    show sendBlobsSidecarsLoop
        (wfChunks scs ++ WireToken.statusByte c :: WireToken.corrupt s :: rest) [] = _
    rw [sendLoop_wf_append scs [] (WireToken.statusByte c :: WireToken.corrupt s :: rest)]
    have hr : readChunkedBlobsSidecar
        (WireToken.statusByte c :: WireToken.corrupt s :: rest)
        ((([] : List BlobsSidecar) ++ scs).length == 0) = .error (.simple s) := by
      rw [readChunked_flag]
      simp [readChunkedBlobsSidecar, syncReadStatusCode, readStatusCodeNoDeadline,
        readStreamByte, decodeErrorMessage, responseCodeSuccess, hc]
    rw [sendLoop_error_step _ _ (GoError.simple s) hr]
    rfl

theorem chunk_loop_eof_vs_failure_witness :
    sendBlobsSidecarsByRangeRequest (wfChunks []) = .ok []
    ∧ sendBlobsSidecarsByRangeRequest (wfChunks [] ++ [WireToken.statusByte 0]) = .ok []
    ∧ sendBlobsSidecarsByRangeRequest
        (wfChunks [] ++ [WireToken.statusByte 0, WireToken.contextBytes]) = .ok []
    ∧ sendBlobsSidecarsByRangeRequest (wfChunks [] ++ WireToken.corrupt "boom" :: [])
        = .error (.wrap (.simple "boom") "readChunkedBlobsSidecar")
    ∧ sendBlobsSidecarsByRangeRequest
        (wfChunks [] ++ WireToken.statusByte 0 :: WireToken.corrupt "boom" :: [])
        = .error (.wrap (.simple "boom") "readChunkedBlobsSidecar")
    ∧ sendBlobsSidecarsByRangeRequest
        (wfChunks [] ++ WireToken.statusByte 0 :: WireToken.contextBytes
          :: WireToken.corrupt "boom" :: [])
        = .error (.wrap (.simple "boom") "readChunkedBlobsSidecar")
    ∧ sendBlobsSidecarsByRangeRequest
        (wfChunks [] ++ WireToken.statusByte 1 :: WireToken.corrupt "boom" :: [])
        = .error (.wrap (.simple "boom") "readChunkedBlobsSidecar") := by
  have h := chunk_loop_eof_vs_failure [] "boom" [] 1
  exact ⟨h.1, h.2.1, h.2.2.1, h.2.2.2.1, h.2.2.2.2.1, h.2.2.2.2.2.1,
    h.2.2.2.2.2.2 (by decide)⟩

/-- C3: a response chunk beginning with a nonzero status byte makes the
client decode the length-prefixed error message and fail the entire call
with `errors.New(errMsg)` wrapped by the loop; the result does not depend
on anything after the failing chunk (no further chunks are read) and no
sidecars are returned to the caller. -/
theorem nonzero_status_aborts (scs : List BlobsSidecar) (c : Nat) (m : String)
    (rest : List WireToken) (hc : c ≠ 0) :
    sendBlobsSidecarsByRangeRequest
        (wfChunks scs ++ WireToken.statusByte c :: WireToken.errMsgTok m :: rest)
      = .error (.wrap (.simple m) "readChunkedBlobsSidecar") := by
  show sendBlobsSidecarsLoop
      (wfChunks scs ++ WireToken.statusByte c :: WireToken.errMsgTok m :: rest) [] = _
  rw [sendLoop_wf_append scs [] (WireToken.statusByte c :: WireToken.errMsgTok m :: rest)]
  have hr : readChunkedBlobsSidecar
      (WireToken.statusByte c :: WireToken.errMsgTok m :: rest)
      ((([] : List BlobsSidecar) ++ scs).length == 0) = .error (.simple m) := by
    rw [readChunked_flag]
    simp [readChunkedBlobsSidecar, syncReadStatusCode, readStatusCodeNoDeadline,
      readStreamByte, decodeErrorMessage, responseCodeSuccess, hc]
  rw [sendLoop_error_step _ _ (GoError.simple m) hr]
  rfl

theorem nonzero_status_aborts_witness :
    sendBlobsSidecarsByRangeRequest
        (wfChunks [] ++ WireToken.statusByte 1 :: WireToken.errMsgTok "bad request" :: [])
      = .error (.wrap (.simple "bad request") "readChunkedBlobsSidecar") :=
  nonzero_status_aborts [] 1 "bad request" [] (by decide)

theorem blob_sizing_witness :
    (EncodeBlobs (List.replicate (31 * FieldElementsPerBlob) 0)).length = 1
    ∧ ((EncodeBlobs (List.replicate (31 * FieldElementsPerBlob + 1) 7)).length = 2
      ∧ (EncodeBlobs (List.replicate (31 * FieldElementsPerBlob + 1) 7)).getD 1 []
          = ((List.replicate (31 * FieldElementsPerBlob + 1) 7).drop
              (31 * FieldElementsPerBlob) ++ List.replicate 31 0)
            :: List.replicate (FieldElementsPerBlob - 1) zeroElement) := by
  constructor
  · exact (blob_sizing _).1 (by simp)
  · exact (blob_sizing _).2 (by simp)

lemma downloadScan_spec (slot : Int) : ∀ (sidecars : List BlobsSidecar),
    downloadScanLoop slot sidecars
      = (contributingSidecar slot sidecars).map
          (fun sc => (sc.blobs.map DecodeBlob).flatten) := by
  intro sidecars
  induction sidecars with
  | nil => rfl
  | cons sc rest ih =>
    by_cases hslot : toInt64 sc.beaconBlockSlot = slot
    · have hb : (toInt64 sc.beaconBlockSlot == slot) = true := by
        simp [hslot]
      by_cases hblobs : sc.blobs.length = 0
      · have hnil : sc.blobs = [] := List.length_eq_zero.mp hblobs
        simp only [downloadScanLoop, contributingSidecar] at ih ⊢
        rw [if_neg (by simp [hslot]), if_pos hblobs]
        rw [List.takeWhile_cons, hb]
        simp only [if_true]
        rw [List.find?_cons_of_neg _ (by simp [hnil])]
        exact ih
      · simp only [downloadScanLoop, contributingSidecar]
        rw [if_neg (by simp [hslot]), if_neg hblobs]
        rw [List.takeWhile_cons, hb]
        simp only [if_true]
        rw [List.find?_cons_of_pos _ (by
          have hne : sc.blobs ≠ [] := by
            intro hh
            apply hblobs
            rw [hh]
            rfl
          simp [hne])]
        rfl
    · have hb : (toInt64 sc.beaconBlockSlot == slot) = false := beq_eq_false_iff_ne.mpr hslot
      simp only [downloadScanLoop, contributingSidecar]
      rw [if_pos hslot]
      rw [List.takeWhile_cons, hb]
      simp

/-- C4: after a successful fetch for requested slot `slot`, the caller's
scan stops at the first sidecar whose (int64-cast) slot differs from the
requested one, skips sidecars with an empty blob list, and writes the
concatenation of `DecodeBlob` over the blobs of the first contributing
sidecar before stopping; if no sidecar contributes, the operation fails with
the no-blobs-found error naming the fetched sidecar count. -/
theorem downloadApp_postprocess_spec (slot : Int) (sidecars : List BlobsSidecar) :
    (∀ sc, contributingSidecar slot sidecars = some sc →
        DownloadAppPostProcess slot sidecars = .ok ((sc.blobs.map DecodeBlob).flatten))
    ∧ (contributingSidecar slot sidecars = none →
        DownloadAppPostProcess slot sidecars
          = .error (.simple ("no blobs found in requested slots, sidecar count: "
              ++ toString sidecars.length))) := by
  constructor
  · intro sc hsc
    unfold DownloadAppPostProcess
    rw [downloadScan_spec, hsc]
    rfl
  · intro hnone
    unfold DownloadAppPostProcess
    rw [downloadScan_spec, hnone]
    rfl

theorem downloadApp_postprocess_spec_witness :
    DownloadAppPostProcess 5 [⟨5, []⟩, ⟨5, [[7, 0], [9]]⟩, ⟨5, [[8]]⟩]
        = .ok ((([[7, 0], [9]] : List (List Nat)).map DecodeBlob).flatten)
    ∧ DownloadAppPostProcess 5 [⟨6, [[1]]⟩]
        = .error (.simple ("no blobs found in requested slots, sidecar count: "
            ++ toString ([(⟨6, [[1]]⟩ : BlobsSidecar)] : List BlobsSidecar).length)) := by
  constructor
  · exact (downloadApp_postprocess_spec 5 _).1 ⟨5, [[7, 0], [9]]⟩ (by decide)
  · exact (downloadApp_postprocess_spec 5 _).2 (by decide)

/-- C6: if the caller-supplied address already embeds a peer-identity
fingerprint, resolution returns it unchanged; otherwise, when the
deliberately-wrong-fingerprint connection attempt fails with an error whose
text contains the key-mismatch pattern, resolution returns the bare address
with the last space-delimited token of that error text appended as the
fingerprint. -/
theorem resolver_behavior (a : Multiaddr) (connectErr : Option GoError) (e : GoError) :
    (a.pid ≠ "" → getMultiaddr a connectErr = .ok a)
    ∧ (a.pid = "" → connectErr = some e →
        goStringsContains e.message "but remote key matches" = true →
        getMultiaddr a connectErr
          = .ok ⟨a.base, (goStringsSplit e.message).getLastD ""⟩) := by
  constructor
  · intro h
    unfold getMultiaddr
    rw [if_pos h]
  · intro hpid hconn hcontains
    unfold getMultiaddr
    rw [if_neg (by simp [hpid])]
    have hr : retrievePeerID connectErr = .ok ((goStringsSplit e.message).getLastD "") := by
      rw [hconn]
      show (if goStringsContains e.message "but remote key matches" then
          Except.ok ((goStringsSplit e.message).getLastD "") else Except.error e)
        = Except.ok ((goStringsSplit e.message).getLastD "")
      rw [if_pos hcontains]
    rw [hr]

theorem resolver_behavior_witness :
    getMultiaddr ⟨"/ip4/127.0.0.1/tcp/13000", "16Uiu2HAmTestPeer"⟩ none
        = .ok ⟨"/ip4/127.0.0.1/tcp/13000", "16Uiu2HAmTestPeer"⟩
    ∧ getMultiaddr ⟨"/ip4/127.0.0.1/tcp/13000", ""⟩
        (some (.simple "peer id mismatch: expected x, but remote key matches 16Uiu2HAmRealPeer"))
        = .ok ⟨"/ip4/127.0.0.1/tcp/13000", "16Uiu2HAmRealPeer"⟩ := by
  constructor
  · exact (resolver_behavior ⟨"/ip4/127.0.0.1/tcp/13000", "16Uiu2HAmTestPeer"⟩ none
      (.simple "")).1 (by decide)
  · have h := (resolver_behavior ⟨"/ip4/127.0.0.1/tcp/13000", ""⟩ _
      (.simple "peer id mismatch: expected x, but remote key matches 16Uiu2HAmRealPeer")).2
      rfl rfl (by decide)
    have h2 : (goStringsSplit (GoError.simple
        "peer id mismatch: expected x, but remote key matches 16Uiu2HAmRealPeer").message).getLastD ""
        = "16Uiu2HAmRealPeer" := by decide
    rw [h2] at h
    exact h

/-- C7: if the identity-discovery connection attempt made with the
deliberately incorrect fingerprint unexpectedly succeeds, resolution fails
with the unexpected-successful-connection error and in particular never
returns any address. -/
theorem resolver_contradiction (a : Multiaddr) (h : a.pid = "") :
    getMultiaddr a none = .error (.simple "unexpected successful connection")
    ∧ ∀ r, getMultiaddr a none ≠ .ok r := by
  have h1 : getMultiaddr a none = .error (.simple "unexpected successful connection") := by
    unfold getMultiaddr
    rw [if_neg (by simp [h])]
    rfl
  refine ⟨h1, fun r hr => ?_⟩
  rw [h1] at hr
  exact Except.noConfusion hr

theorem resolver_contradiction_witness :
    getMultiaddr ⟨"/ip4/127.0.0.1/tcp/13000", ""⟩ none
      = .error (.simple "unexpected successful connection") :=
  (resolver_contradiction ⟨"/ip4/127.0.0.1/tcp/13000", ""⟩ rfl).1
